import Mathlib

/-!
Shallow embedding of the revisionstore core under verification:

* `src/lib/revisionstore/src/indexedlogdatastore.rs` — the indexed-log data
  store (`IndexedLogDataStore`, `Entry`, its `add`, `get_delta`,
  `get_delta_chain`, `get_meta`, `get_missing`, `get`, `flush`, `close`).
* `src/edenscm/mercurial/rust/bindings/src/revisionstore/mod.rs` — the pack
  store metrics (`compute_store_size`, `datapackstore.getmetrics`).

Bytes are modelled as natural numbers, byte buffers as lists of naturals;
machine-integer truncation (`as u16`, `write_u64`) is explicit `% 2^w`
arithmetic. Fallible operations return `Except Err`. External library
collaborators that the sources call but that are not part of the sources
(the `indexedlog` rotating log, the `lz4_pyframe` codec, the `Metadata`
serializer of `datastore.rs`) are modelled from the specification, each
marked `Modelled from the spec:` in its doc comment.
-/

deriving instance DecidableEq for Except

namespace Revisionstore

/-- From the source: `Node::len()` of the 20-byte node digest. -/
def Node.len : Nat := 20

/-- A `(path, node)` key, as in the `types` crate: `path` is an arbitrary
byte sequence, `node` a 20-byte digest (the 20-byte width is carried as a
hypothesis where a theorem needs it). -/
structure Key where
  path : List Nat
  node : List Nat
deriving DecidableEq, Repr

/-- Big-endian bytes of `n as u16` (as written by `write_u16::<BigEndian>`
after the Rust `as u16` truncation). -/
def u16be (n : Nat) : List Nat := [n / 256 % 256, n % 256]

/-- Big-endian bytes of `n as u64` (as written by `write_u64::<BigEndian>`). -/
def u64be (n : Nat) : List Nat :=
  [n / 72057594037927936 % 256, n / 281474976710656 % 256,
   n / 1099511627776 % 256, n / 4294967296 % 256,
   n / 16777216 % 256, n / 65536 % 256, n / 256 % 256, n % 256]

/-- Cursor read of a big-endian `u16`: two bytes and the remaining suffix
(`read_u16::<BigEndian>`); `none` models the end-of-buffer I/O error. -/
def readU16 : List Nat → Option (Nat × List Nat)
  | a :: b :: rest => some (a * 256 + b, rest)
  | _ => none

/-- Cursor read of a big-endian `u64` (`read_u64::<BigEndian>`). -/
def readU64 : List Nat → Option (Nat × List Nat)
  | a :: b :: c :: d :: e :: f :: g :: h :: rest =>
      some (((((((a * 256 + b) * 256 + c) * 256 + d) * 256 + e) * 256 + f)
        * 256 + g) * 256 + h, rest)
  | _ => none

/-- Modelled from the spec: `Metadata` is an ordered set of
`(tag: u8, value: bytes)` attributes (the serializer lives in
`datastore.rs`, outside the given sources). -/
abbrev Metadata := List (Nat × List Nat)

/-- Modelled from the spec: one serialized metadata pair — the tag byte, the
value length as `u16` big-endian, then the value bytes. -/
def encPair (p : Nat × List Nat) : List Nat := p.1 :: (u16be p.2.length ++ p.2)

/-- Modelled from the spec: `Metadata` is serialized as `u8 version = 0`,
then pairs terminated by `tag = 0`. -/
def Metadata.write (m : Metadata) : List Nat := 0 :: (m.flatMap encPair ++ [0])

/-- Modelled from the spec: read the tag-terminated pair list. The recursion
is bounded by a fuel argument; each parsed pair consumes at least three
bytes, so a fuel of the buffer length always suffices. -/
def readMetaPairsF : Nat → List Nat → Option (Metadata × List Nat)
  | _, [] => none
  | fuel + 1, tag :: rest =>
    if tag = 0 then some ([], rest)
    else
      match rest with
      | a :: b :: rest2 =>
        let len := a * 256 + b
        if len ≤ rest2.length then
          match readMetaPairsF fuel (rest2.drop len) with
          | none => none
          | some (pairs, rest3) => some ((tag, rest2.take len) :: pairs, rest3)
        else none
      | _ => none
  | 0, _ :: _ => none

/-- Modelled from the spec: read the tag-terminated pair list. -/
def readMetaPairs (l : List Nat) : Option (Metadata × List Nat) :=
  readMetaPairsF l.length l

/-- Modelled from the spec: `Metadata::read` — consume the version byte, then
the pairs up to and including the zero tag. -/
def Metadata.read (l : List Nat) : Option (Metadata × List Nat) :=
  match l with
  | [] => none
  | _v :: rest => readMetaPairs rest

/-- The well-formedness that the data model of the spec imposes on metadata: real tags
are nonzero bytes and each value length fits in 16 bits. -/
def MetadataWF (m : Metadata) : Prop :=
  ∀ p ∈ m, p.1 ≠ 0 ∧ p.1 < 256 ∧ p.2.length < 65536

instance (m : Metadata) : Decidable (MetadataWF m) :=
  inferInstanceAs (Decidable (∀ p ∈ m, p.1 ≠ 0 ∧ p.1 < 256 ∧ p.2.length < 65536))

/-- Modelled from the spec: the payload is stored as LZ4-framed bytes. The
`lz4_pyframe` codec is outside the given sources; the frame is modelled as
the 4-byte little-endian uncompressed-size header followed by the payload
itself, keeping the spec-relevant property that decompression inverts
compression. -/
def compress (raw : List Nat) : List Nat :=
  [raw.length % 256, raw.length / 256 % 256,
   raw.length / 65536 % 256, raw.length / 16777216 % 256] ++ raw

/-- Modelled from the spec: inverse of `compress`; fails when the frame
header disagrees with the payload. -/
def decompress (l : List Nat) : Option (List Nat) :=
  match l with
  | a :: b :: c :: d :: rest =>
    if a + b * 256 + c * 65536 + d * 16777216 = rest.length then some rest
    else none
  | _ => none

/-- Modelled from the spec: the `indexedlog` rotating log, holding the
appended entry buffers newest first. Rotation caps
(`max_log_count`, `max_bytes_per_log`) never evict the entries the claims
exercise, so shard boundaries are not represented. -/
structure LogRotate where
  entries : List (List Nat)
deriving DecidableEq, Repr

/-- Modelled from the spec: `log.append` stores one entry buffer. -/
def LogRotate.append (log : LogRotate) (buf : List Nat) : LogRotate :=
  ⟨buf :: log.entries⟩

/-- Modelled from the spec: lookup through the primary index declared in
`IndexedLogDataStore::new`, which keys every entry by its bytes
`0..Node::len()`; matching entries come back newest first. -/
def LogRotate.lookup (log : LogRotate) (keyBytes : List Nat) : List (List Nat) :=
  log.entries.filter (fun e => e.take Node.len == keyBytes)

/-- Error kinds surfaced by the store (the source uses `failure::Error`
with a `KeyError` downcast for not-found). -/
inductive Err where
  | keyError
  | deltasNotSupported
  | readFailure
  | decompressFailure
  | noContent
deriving DecidableEq, Repr

/-- `Result::is_err` on the embedded fallible results. -/
def is_err : Except Err α → Bool
  | Except.error _ => true
  | Except.ok _ => false

/-- `Delta { key, base, data }` from `datastore.rs`. -/
structure Delta where
  key : Key
  base : Option Key
  data : List Nat
deriving DecidableEq, Repr

/-- The in-memory `Entry` of `indexedlogdatastore.rs`. -/
structure Entry where
  key : Key
  metadata : Metadata
  content : Option (List Nat)
  compressed_content : Option (List Nat)
deriving DecidableEq, Repr

/-- `Entry::new`. -/
def Entry.new (key : Key) (content : List Nat) (metadata : Metadata) : Entry :=
  ⟨key, metadata, some content, none⟩

/-- The parsing done by `Entry::from_log` on one looked-up buffer: skip the
20 node bytes, read the `u16` path length and skip that many bytes, read the
metadata, read the `u64` compressed length and slice that many bytes.
Returns the metadata and the compressed payload slice. -/
def parseEntryBody (buf : List Nat) : Option (Metadata × List Nat) :=
  match readU16 (buf.drop Node.len) with
  | none => none
  | some (nameLen, rest1) =>
    match Metadata.read (rest1.drop nameLen) with
    | none => none
    | some (metadata, rest3) =>
      match readU64 rest3 with
      | none => none
      | some (compressedLen, rest4) =>
        if compressedLen ≤ rest4.length then
          some (metadata, rest4.take compressedLen)
        else none

/-- `Entry::from_log`: look the node up in the primary index, take the first
match (`nth(0)`, a `KeyError` when there is none), parse its body, and build
an entry carrying the queried key and the compressed payload. -/
def Entry.from_log (key : Key) (log : LogRotate) : Except Err Entry :=
  match (log.lookup key.node).head? with
  | none => Except.error Err.keyError
  | some buf =>
    match parseEntryBody buf with
    | none => Except.error Err.readFailure
    | some (metadata, compressed) =>
      Except.ok ⟨key, metadata, none, some compressed⟩

/-- `Entry::write_to_log`: node bytes, path length `as u16` big-endian, path
bytes, serialized metadata, compressed length as `u64` big-endian, compressed
payload; the buffer is appended to the log. -/
def Entry.write_to_log (e : Entry) (log : LogRotate) : Except Err LogRotate :=
  let buf := e.key.node ++ u16be e.key.path.length ++ e.key.path
    ++ Metadata.write e.metadata
  match e.compressed_content with
  | some compressed =>
    Except.ok (log.append (buf ++ u64be compressed.length ++ compressed))
  | none =>
    match e.content with
    | some raw =>
      let compressed := compress raw
      Except.ok (log.append (buf ++ u64be compressed.length ++ compressed))
    | none => Except.error Err.noContent

/-- `Entry::content`: the cached raw content, or the decompressed payload. -/
def Entry.getContent (e : Entry) : Except Err (List Nat) :=
  match e.content with
  | some c => Except.ok c
  | none =>
    match e.compressed_content with
    | some compressed =>
      match decompress compressed with
      | some raw => Except.ok raw
      | none => Except.error Err.decompressFailure
    | none => Except.error Err.noContent

/-- The store: a handle on the rotating log. -/
structure IndexedLogDataStore where
  log : LogRotate
deriving DecidableEq, Repr

/-- Modelled from the spec: the durable content of the store directory after
a flush — `flush` persists buffered appends and index updates. -/
structure Dir where
  log : LogRotate
deriving DecidableEq, Repr

/-- `IndexedLogDataStore::new`: open the log in the given directory. -/
def IndexedLogDataStore.new (d : Dir) : Except Err IndexedLogDataStore :=
  Except.ok ⟨d.log⟩

/-- `IndexedLogDataStore::add`: `ensure!(delta.base.is_none())`, then write
the new entry to the log. -/
def IndexedLogDataStore.add (s : IndexedLogDataStore) (delta : Delta)
    (metadata : Metadata) : Except Err IndexedLogDataStore :=
  match delta.base with
  | some _ => Except.error Err.deltasNotSupported
  | none =>
    match (Entry.new delta.key delta.data metadata).write_to_log s.log with
    | Except.error e => Except.error e
    | Except.ok log => Except.ok ⟨log⟩

/-- `IndexedLogDataStore::flush`: persist the log; the store stays usable and
the directory now holds its entries. -/
def IndexedLogDataStore.flush (s : IndexedLogDataStore) :
    Except Err (IndexedLogDataStore × Dir) :=
  Except.ok (s, ⟨s.log⟩)

/-- `IndexedLogDataStore::close`: flush then drop. -/
def IndexedLogDataStore.close (s : IndexedLogDataStore) : Except Err Dir :=
  Except.ok ⟨s.log⟩

/-- `LocalStore::get_missing`: the keys whose `Entry::from_log` fails. -/
def IndexedLogDataStore.get_missing (s : IndexedLogDataStore)
    (keys : List Key) : Except Err (List Key) :=
  Except.ok (keys.filter (fun k => is_err (Entry.from_log k s.log)))

/-- Result of a Rust call that may panic rather than return. -/
inductive RResult (α : Type) where
  | ok : α → RResult α
  | err : Err → RResult α
  | panic : RResult α
deriving DecidableEq, Repr

/-- `DataStore::get` on the indexed log: the body is the `unreachable!()`
macro, so every call panics. -/
def IndexedLogDataStore.get (_s : IndexedLogDataStore) (_key : Key) :
    RResult (List Nat) :=
  RResult.panic

/-- `DataStore::get_delta`: parse the entry, decompress its content, and
return a base-less `Delta` carrying the queried key. -/
def IndexedLogDataStore.get_delta (s : IndexedLogDataStore) (key : Key) :
    Except Err Delta :=
  match Entry.from_log key s.log with
  | Except.error e => Except.error e
  | Except.ok entry =>
    match entry.getContent with
    | Except.error e => Except.error e
    | Except.ok content => Except.ok ⟨key, none, content⟩

/-- `DataStore::get_delta_chain`: the one-element chain `[get_delta key]`. -/
def IndexedLogDataStore.get_delta_chain (s : IndexedLogDataStore) (key : Key) :
    Except Err (List Delta) :=
  match s.get_delta key with
  | Except.error e => Except.error e
  | Except.ok delta => Except.ok [delta]

/-- `DataStore::get_meta`: the metadata of the parsed entry. -/
def IndexedLogDataStore.get_meta (s : IndexedLogDataStore) (key : Key) :
    Except Err Metadata :=
  match Entry.from_log key s.log with
  | Except.error e => Except.error e
  | Except.ok entry => Except.ok entry.metadata

/-- One directory entry as seen by `compute_store_size`: its extension (if
any) and its size; a scan represented as `none` models any `read_dir`,
dirent or metadata failure. -/
structure DirEntry where
  ext : Option String
  size : Nat
deriving DecidableEq, Repr

/-- The body of the `compute_store_size` loop: when the entry has an
extension equal to one of `extensions`, accumulate its size and count it. -/
def storeSizeStep (extensions : List String) (acc : Nat × Nat)
    (d : DirEntry) : Nat × Nat :=
  match d.ext with
  | some e =>
    if extensions.contains e then (acc.1 + d.size, acc.2 + 1) else acc
  | none => acc

/-- `compute_store_size`: accumulate the size and count of the files whose
extension is one of `extensions`, then halve the count (indexes were counted
too); returns `(size, count)`. -/
def compute_store_size (scan : Option (List DirEntry))
    (extensions : List String) : Option (Nat × Nat) :=
  match scan with
  | none => none
  | some dirents =>
    let sc := dirents.foldl (storeSizeStep extensions) (0, 0)
    some (sc.1, sc.2 / 2)

/-- `datapackstore::getmetrics`: `(numpacks, totalpacksize)` from
`compute_store_size`, or `(0, 0)` on error. -/
def getmetrics (scan : Option (List DirEntry)) (extensions : List String) :
    Nat × Nat :=
  match compute_store_size scan extensions with
  | some (size, count) => (count, size)
  | none => (0, 0)

/-- The `datapackstore` binding calls `compute_store_size` with the two
extensions `datapack` and `dataidx`. -/
def datapackstore_getmetrics (scan : Option (List DirEntry)) : Nat × Nat :=
  getmetrics scan ["datapack", "dataidx"]

/-- The filter the `compute_store_size` loop applies: the entry has an
extension and it equals one of the given extensions. -/
def matchesExt (extensions : List String) (d : DirEntry) : Bool :=
  match d.ext with
  | some e => extensions.contains e
  | none => false

/-- The exact byte layout `Entry::write_to_log` produces for a fresh entry,
stated once so the layout theorems can refer to it. -/
def specEntryLayout (key : Key) (m : Metadata) (data : List Nat) : List Nat :=
  key.node ++ u16be key.path.length ++ key.path ++ Metadata.write m
    ++ u64be (compress data).length ++ compress data

/-! ## Helper lemmas -/

theorem readU16_u16be (n : Nat) (rest : List Nat) :
    readU16 (u16be n ++ rest) = some (n % 65536, rest) := by
  simp only [u16be, List.cons_append, List.nil_append, readU16]
  congr 2
  omega

theorem u16be_mod (n : Nat) : u16be n = u16be (n % 65536) := by
  have h1 : n % 65536 % 256 = n % 256 := Nat.mod_mod_of_dvd n (by norm_num)
  have h2 : n % 65536 / 256 = n / 256 % 256 := by
    have := Nat.mod_mul_right_div_self n 256 256
    simpa using this
  simp only [u16be, h1, h2]
  congr 1
  omega

theorem readMetaPairsF_write (m : Metadata) (hWF : MetadataWF m) : ∀ (rest : List Nat)
    (fuel : Nat), (m.flatMap encPair ++ 0 :: rest).length ≤ fuel →
    readMetaPairsF fuel (m.flatMap encPair ++ 0 :: rest) = some (m, rest) := by
  induction m with
  | nil =>
    intro rest fuel hfuel
    rw [List.flatMap_nil, List.nil_append]
    match fuel, hfuel with
    | f + 1, _ => simp [readMetaPairsF]
  | cons p m ih =>
    intro rest fuel hfuel
    obtain ⟨t, v⟩ := p
    obtain ⟨ht0, _ht, hv⟩ := hWF (t, v) (List.mem_cons_self _ _)
    have ht0' : t ≠ 0 := ht0
    have hv' : v.length < 65536 := hv
    have hWF' : MetadataWF m := fun q hq => hWF q (List.mem_cons_of_mem _ hq)
    have hlist : (((t, v) :: m).flatMap encPair ++ 0 :: rest)
        = t :: (v.length / 256 % 256) :: (v.length % 256)
          :: (v ++ (m.flatMap encPair ++ 0 :: rest)) := by
      simp [encPair, u16be, List.append_assoc]
    rw [hlist] at hfuel ⊢
    have hlen : v.length / 256 % 256 * 256 + v.length % 256 = v.length := by
      omega
    match fuel, hfuel with
    | f + 1, hfuel =>
      rw [readMetaPairsF, if_neg ht0']
      simp only [hlen]
      rw [if_pos (by simp)]
      rw [List.drop_left, ih hWF' rest f (by
        simp only [List.length_cons, List.length_append] at hfuel ⊢
        omega)]
      rw [List.take_left]

theorem readU64_u64be (n : Nat) (rest : List Nat)
    (h : n < 18446744073709551616) :
    readU64 (u64be n ++ rest) = some (n, rest) := by
  simp only [u64be, List.cons_append, List.nil_append, readU64]
  congr 2
  omega

theorem compress_length (raw : List Nat) :
    (compress raw).length = raw.length + 4 := by
  simp [compress]

theorem decompress_compress (raw : List Nat) (h : raw.length < 4294967296) :
    decompress (compress raw) = some raw := by
  simp only [compress, List.cons_append, List.nil_append, decompress]
  rw [if_pos]
  omega

theorem readMetaPairs_write (m : Metadata) (hWF : MetadataWF m)
    (rest : List Nat) :
    readMetaPairs (m.flatMap encPair ++ 0 :: rest) = some (m, rest) :=
  readMetaPairsF_write m hWF rest _ (Nat.le_refl _)

theorem metadata_read_write (m : Metadata) (hWF : MetadataWF m)
    (rest : List Nat) :
    Metadata.read (Metadata.write m ++ rest) = some (m, rest) := by
  have h : Metadata.write m ++ rest = 0 :: (m.flatMap encPair ++ 0 :: rest) := by
    simp [Metadata.write]
  rw [h, Metadata.read, readMetaPairs_write m hWF]

theorem parseEntryBody_layout (key : Key) (m : Metadata) (data : List Nat)
    (hnode : key.node.length = Node.len)
    (hpath : key.path.length < 65536)
    (hdata : data.length < 4294967296)
    (hWF : MetadataWF m) :
    parseEntryBody (specEntryLayout key m data) = some (m, compress data) := by
  have hassoc : specEntryLayout key m data
      = key.node ++ (u16be key.path.length ++ (key.path ++ (Metadata.write m
        ++ (u64be (compress data).length ++ compress data)))) := by
    simp [specEntryLayout, List.append_assoc]
  rw [parseEntryBody, hassoc, List.drop_left' hnode, readU16_u16be,
    Nat.mod_eq_of_lt hpath]
  simp only
  rw [List.drop_left, metadata_read_write m hWF]
  simp only
  rw [readU64_u64be _ _ (by rw [compress_length]; omega)]
  simp only [Nat.le_refl, if_pos, List.take_length]

theorem add_ok (s : IndexedLogDataStore) (delta : Delta) (metadata : Metadata)
    (hbase : delta.base = none) :
    s.add delta metadata
      = Except.ok ⟨s.log.append (specEntryLayout delta.key metadata delta.data)⟩ := by
  rw [IndexedLogDataStore.add, hbase]
  simp [Entry.new, Entry.write_to_log, specEntryLayout, List.append_assoc]

theorem specEntryLayout_take (key : Key) (m : Metadata) (data : List Nat)
    (hnode : key.node.length = Node.len) :
    (specEntryLayout key m data).take Node.len = key.node := by
  have hassoc : specEntryLayout key m data
      = key.node ++ (u16be key.path.length ++ (key.path ++ (Metadata.write m
        ++ (u64be (compress data).length ++ compress data)))) := by
    simp [specEntryLayout, List.append_assoc]
  rw [hassoc, List.take_left' hnode]

theorem lookup_append_hit (log : LogRotate) (buf : List Nat)
    (keyBytes : List Nat) (h : buf.take Node.len = keyBytes) :
    (log.append buf).lookup keyBytes = buf :: log.lookup keyBytes := by
  simp [LogRotate.append, LogRotate.lookup, List.filter_cons, h]

theorem from_log_layout (key : Key) (log : LogRotate) (m : Metadata)
    (data : List Nat)
    (hnode : key.node.length = Node.len)
    (hpath : key.path.length < 65536)
    (hdata : data.length < 4294967296)
    (hWF : MetadataWF m) :
    Entry.from_log key (log.append (specEntryLayout key m data))
      = Except.ok ⟨key, m, none, some (compress data)⟩ := by
  rw [Entry.from_log,
    lookup_append_hit log _ _ (specEntryLayout_take key m data hnode)]
  simp only [List.head?_cons]
  rw [parseEntryBody_layout key m data hnode hpath hdata hWF]

theorem get_delta_ok_shape (s : IndexedLogDataStore) (key : Key) (d : Delta)
    (h : s.get_delta key = Except.ok d) : d.base = none ∧ d.key = key := by
  cases hf : Entry.from_log key s.log with
  | error e => simp [IndexedLogDataStore.get_delta, hf] at h
  | ok entry =>
    cases hc : entry.getContent with
    | error e => simp [IndexedLogDataStore.get_delta, hf, hc] at h
    | ok content =>
      simp only [IndexedLogDataStore.get_delta, hf, hc, Except.ok.injEq] at h
      subst h
      exact ⟨rfl, rfl⟩

theorem from_log_node_congr (k1 k2 : Key) (log : LogRotate)
    (h : k1.node = k2.node) :
    Entry.from_log k1 log
      = (Entry.from_log k2 log).map
          (fun e => ⟨k1, e.metadata, e.content, e.compressed_content⟩) := by
  rw [Entry.from_log, Entry.from_log, h]
  cases hb : (log.lookup k2.node).head? with
  | none => simp [Except.map]
  | some buf =>
    cases hp : parseEntryBody buf with
    | none => simp [Except.map, hp]
    | some p =>
      obtain ⟨md, c⟩ := p
      simp [Except.map, hp]

theorem storeSizeStep_eq (extensions : List String) (acc : Nat × Nat)
    (d : DirEntry) :
    storeSizeStep extensions acc d
      = if matchesExt extensions d then (acc.1 + d.size, acc.2 + 1) else acc := by
  rw [storeSizeStep, matchesExt]
  cases d.ext with
  | none => simp
  | some e => by_cases hc : extensions.contains e <;> simp [hc]

theorem store_size_foldl (extensions : List String) (l : List DirEntry) :
    ∀ a c : Nat,
    l.foldl (storeSizeStep extensions) (a, c)
      = (a + ((l.filter (matchesExt extensions)).map DirEntry.size).sum,
         c + (l.filter (matchesExt extensions)).length) := by
  induction l with
  | nil => intro a c; simp
  | cons d l ih =>
    intro a c
    rw [List.foldl_cons, List.filter_cons, storeSizeStep_eq]
    by_cases hm : matchesExt extensions d = true
    · rw [if_pos hm, if_pos hm, ih]
      simp only [List.map_cons, List.sum_cons, List.length_cons, Prod.mk.injEq]
      constructor <;> omega
    · rw [if_neg hm, if_neg hm, ih]

theorem get_delta_layout (log : LogRotate) (key : Key) (m : Metadata)
    (data : List Nat)
    (hnode : key.node.length = Node.len)
    (hpath : key.path.length < 65536)
    (hdata : data.length < 4294967296)
    (hWF : MetadataWF m) :
    (⟨log.append (specEntryLayout key m data)⟩
        : IndexedLogDataStore).get_delta key
      = Except.ok ⟨key, none, data⟩ := by
  rw [IndexedLogDataStore.get_delta]
  rw [show (⟨log.append (specEntryLayout key m data)⟩
      : IndexedLogDataStore).log = log.append (specEntryLayout key m data)
    from rfl]
  rw [from_log_layout key log m data hnode hpath hdata hWF]
  simp [Entry.getContent, decompress_compress data hdata]

theorem get_meta_layout (log : LogRotate) (key : Key) (m : Metadata)
    (data : List Nat)
    (hnode : key.node.length = Node.len)
    (hpath : key.path.length < 65536)
    (hdata : data.length < 4294967296)
    (hWF : MetadataWF m) :
    (⟨log.append (specEntryLayout key m data)⟩
        : IndexedLogDataStore).get_meta key
      = Except.ok m := by
  rw [IndexedLogDataStore.get_meta]
  rw [show (⟨log.append (specEntryLayout key m data)⟩
      : IndexedLogDataStore).log = log.append (specEntryLayout key m data)
    from rfl]
  rw [from_log_layout key log m data hnode hpath hdata hWF]

/-! ## Test fixtures for the witness theorems -/

def wnode : List Nat :=
  [1, 2, 3, 4, 5, 6, 7, 8, 9, 10, 11, 12, 13, 14, 15, 16, 17, 18, 19, 20]

def wnodeB : List Nat :=
  [21, 22, 23, 24, 25, 26, 27, 28, 29, 30,
   31, 32, 33, 34, 35, 36, 37, 38, 39, 40]

def wkey : Key := ⟨[97], wnode⟩

def wkey2 : Key := ⟨[98], wnode⟩

def wkeyB : Key := ⟨[97], wnodeB⟩

def wdelta : Delta := ⟨wkey, none, [1, 2, 3, 4]⟩

def wdeltaB : Delta := ⟨wkeyB, some wkey, [5, 6]⟩

def wmeta : Metadata := [(1, [0, 0, 0, 0, 0, 0, 0, 4])]

def freshStore : IndexedLogDataStore := ⟨⟨[]⟩⟩

def wlongpath : List Nat := List.replicate 65536 7

def wkeyLong : Key := ⟨wlongpath, wnode⟩

def wdeltaLong : Delta := ⟨wkeyLong, none, [1]⟩

def wstore : IndexedLogDataStore :=
  ⟨⟨[specEntryLayout wkey wmeta [1, 2, 3, 4]]⟩⟩

/-! ## Claim theorems -/

/-- C1: for every delta with `base = None` and every metadata value, after
`add(delta, metadata)` on an indexed-log data store followed by `close` and
a reopen of the same directory, `get_delta(delta.key)` succeeds with data
equal to `delta.data`, and `get_meta(delta.key)` equals the metadata
recorded at write time. The hypotheses are the data-model constraints of
the spec: a 20-byte node, a path length fitting in 16 bits, a payload
length fitting the LZ4 frame header, and well-formed metadata. -/
theorem claim_C1_add_close_reopen_roundtrip (s : IndexedLogDataStore)
    (delta : Delta) (metadata : Metadata)
    (hbase : delta.base = none)
    (hnode : delta.key.node.length = Node.len)
    (hpath : delta.key.path.length < 65536)
    (hdata : delta.data.length < 4294967296)
    (hmeta : MetadataWF metadata) :
    ((s.add delta metadata).bind fun s1 =>
      s1.close.bind fun dir =>
        (IndexedLogDataStore.new dir).bind fun s2 =>
          (s2.get_delta delta.key).bind fun d =>
            (s2.get_meta delta.key).map fun m => (d, m))
      = Except.ok (⟨delta.key, none, delta.data⟩, metadata) := by
  rw [add_ok s delta metadata hbase]
  simp only [Except.bind, IndexedLogDataStore.close, IndexedLogDataStore.new]
  rw [get_delta_layout s.log delta.key metadata delta.data hnode hpath hdata
    hmeta]
  rw [get_meta_layout s.log delta.key metadata delta.data hnode hpath hdata
    hmeta]
  rfl

theorem claim_C1_add_close_reopen_roundtrip_witness :
    (wdelta.base = none ∧ wdelta.key.node.length = Node.len
      ∧ wdelta.key.path.length < 65536 ∧ wdelta.data.length < 4294967296
      ∧ MetadataWF wmeta)
    ∧ ((freshStore.add wdelta wmeta).bind fun s1 =>
        s1.close.bind fun dir =>
          (IndexedLogDataStore.new dir).bind fun s2 =>
            (s2.get_delta wdelta.key).bind fun d =>
              (s2.get_meta wdelta.key).map fun m => (d, m))
        = Except.ok (⟨wdelta.key, none, wdelta.data⟩, wmeta) :=
  ⟨by decide,
   claim_C1_add_close_reopen_roundtrip freshStore wdelta wmeta (by decide)
     (by decide) (by decide) (by decide) (by decide)⟩

/-- C2: `add(delta, metadata)` on the indexed-log data store fails if and
only if `delta.base` is `Some(_)` (in the embedding the only failure source
is the `ensure!` guard; appends to the modelled log always succeed). -/
theorem claim_C2_add_fails_iff_base_some (s : IndexedLogDataStore)
    (delta : Delta) (metadata : Metadata) :
    is_err (s.add delta metadata) = delta.base.isSome := by
  cases hb : delta.base with
  | none => rw [add_ok s delta metadata hb]; rfl
  | some b => simp [IndexedLogDataStore.add, hb, is_err]

/-- C3 (counterexample): the claim says `get(key)` never panics and fails
with a not-found error for an unstored key; on the fresh store and the key
`wkeyB` the source instead reaches `unreachable!()`, modelled as
`RResult.panic`, which is not a not-found error. -/
theorem claim_C3_counterexample :
    IndexedLogDataStore.get freshStore wkeyB = RResult.panic
      ∧ IndexedLogDataStore.get freshStore wkeyB ≠ RResult.err Err.keyError := by
  decide

/-- C3 (amended): `get(key)` on the indexed-log data store is unimplemented
in the source (`unreachable!()`): every call panics instead of returning
content or a not-found error. -/
theorem claim_C3_get_always_panics (s : IndexedLogDataStore) (key : Key) :
    s.get key = RResult.panic := rfl

/-- C4: on a log whose entries all parse (as every entry written by `add`
does), `get_missing(S)` returns exactly the sublist of `S` of keys with no
record in the log — those whose node is indexed by no entry — preserving the
order of `S`. -/
theorem claim_C4_get_missing_exact (s : IndexedLogDataStore) (keys : List Key)
    (hWF : ∀ buf ∈ s.log.entries, (parseEntryBody buf).isSome = true) :
    s.get_missing keys
      = Except.ok (keys.filter fun k => s.log.lookup k.node == []) := by
  rw [IndexedLogDataStore.get_missing]
  congr 1
  have hpt : ∀ k : Key,
      is_err (Entry.from_log k s.log) = (s.log.lookup k.node == []) := by
    intro k
    cases hl : s.log.lookup k.node with
    | nil =>
      rw [Entry.from_log, hl]
      rfl
    | cons b l =>
      have hb : b ∈ s.log.entries := by
        have hmem : b ∈ s.log.lookup k.node := by
          rw [hl]; exact List.mem_cons_self _ _
        exact List.mem_of_mem_filter hmem
      obtain ⟨p, hp⟩ := Option.isSome_iff_exists.mp (hWF b hb)
      obtain ⟨md, c⟩ := p
      rw [Entry.from_log, hl]
      simp only [List.head?_cons, hp]
      rfl
  exact List.filter_congr fun k _ => hpt k

theorem claim_C4_get_missing_exact_witness :
    (∀ buf ∈ wstore.log.entries, (parseEntryBody buf).isSome = true)
    ∧ wstore.get_missing [wkey, wkeyB]
        = Except.ok
            ([wkey, wkeyB].filter fun k => wstore.log.lookup k.node == [])
    ∧ wstore.get_missing [wkey, wkeyB] = Except.ok [wkeyB] :=
  ⟨by decide, claim_C4_get_missing_exact wstore [wkey, wkeyB] (by decide),
   by decide⟩

/-- C5: `get_delta_chain(key)` on the indexed-log data store: for a key
stored in the log — a record for its node is indexed and is well-formed, in
that it parses and its payload decompresses, as every record written by
`add` does — the call succeeds and returns the one-element chain
`[Delta { key, base: None, data: payload }]`, whose single (hence last)
element has `base = None`; any successful chain has that one-element
base-less shape; and for a key with no indexed record it fails with the
not-found error. -/
theorem claim_C5_chain_single_baseless (s : IndexedLogDataStore) (key : Key) :
    (s.log.lookup key.node = [] →
      s.get_delta_chain key = Except.error Err.keyError)
    ∧ (∀ c, s.get_delta_chain key = Except.ok c →
        ∃ d, c = [d] ∧ d.base = none ∧ d.key = key)
    ∧ ∀ buf md comp raw, (s.log.lookup key.node).head? = some buf →
        parseEntryBody buf = some (md, comp) →
        decompress comp = some raw →
        s.get_delta_chain key = Except.ok [⟨key, none, raw⟩] := by
  refine ⟨?_, ?_, ?_⟩
  · intro h
    rw [IndexedLogDataStore.get_delta_chain, IndexedLogDataStore.get_delta,
      Entry.from_log, h]
    rfl
  · intro c hc
    cases hd : s.get_delta key with
    | error e =>
      simp only [IndexedLogDataStore.get_delta_chain, hd] at hc
      exact Except.noConfusion hc
    | ok d =>
      simp only [IndexedLogDataStore.get_delta_chain, hd,
        Except.ok.injEq] at hc
      subst hc
      obtain ⟨h1, h2⟩ := get_delta_ok_shape s key d hd
      exact ⟨d, rfl, h1, h2⟩
  · intro buf md comp raw hb hp hd
    have hfl : Entry.from_log key s.log = Except.ok ⟨key, md, none, some comp⟩ := by
      simp only [Entry.from_log, hb, hp]
    have hgd : s.get_delta key = Except.ok ⟨key, none, raw⟩ := by
      simp only [IndexedLogDataStore.get_delta, hfl, Entry.getContent, hd]
    simp only [IndexedLogDataStore.get_delta_chain, hgd]

theorem claim_C5_chain_single_baseless_witness :
    (freshStore.log.lookup wkey.node = []
      ∧ freshStore.get_delta_chain wkey = Except.error Err.keyError)
    ∧ ((wstore.log.lookup wkey.node).head?
          = some (specEntryLayout wkey wmeta [1, 2, 3, 4])
      ∧ parseEntryBody (specEntryLayout wkey wmeta [1, 2, 3, 4])
          = some (wmeta, compress [1, 2, 3, 4])
      ∧ decompress (compress [1, 2, 3, 4]) = some [1, 2, 3, 4]
      ∧ wstore.get_delta_chain wkey
          = Except.ok [⟨wkey, none, [1, 2, 3, 4]⟩]) :=
  ⟨⟨by decide, (claim_C5_chain_single_baseless freshStore wkey).1 (by decide)⟩,
   ⟨by decide, by decide, by decide,
    (claim_C5_chain_single_baseless wstore wkey).2.2
      (specEntryLayout wkey wmeta [1, 2, 3, 4]) wmeta
      (compress [1, 2, 3, 4]) [1, 2, 3, 4]
      (by decide) (by decide) (by decide)⟩⟩

/-- C6: `add` with a delta whose base is `Some(_)` returns an error without
producing a new store state, so on a store whose log does not index the key
a subsequent `get_missing([delta.key])` still returns `[delta.key]`. -/
theorem claim_C6_rejected_add_leaves_store (s : IndexedLogDataStore)
    (delta : Delta) (metadata : Metadata) (hbase : delta.base.isSome = true) :
    s.add delta metadata = Except.error Err.deltasNotSupported
    ∧ (s.log.lookup delta.key.node = [] →
        s.get_missing [delta.key] = Except.ok [delta.key]) := by
  constructor
  · obtain ⟨b, hb⟩ := Option.isSome_iff_exists.mp hbase
    simp [IndexedLogDataStore.add, hb]
  · intro h
    rw [IndexedLogDataStore.get_missing]
    have herr : is_err (Entry.from_log delta.key s.log) = true := by
      rw [Entry.from_log, h]
      rfl
    simp [List.filter_cons, herr]

theorem claim_C6_rejected_add_leaves_store_witness :
    wdeltaB.base.isSome = true
    ∧ freshStore.add wdeltaB wmeta = Except.error Err.deltasNotSupported
    ∧ freshStore.log.lookup wdeltaB.key.node = []
    ∧ freshStore.get_missing [wdeltaB.key] = Except.ok [wdeltaB.key] :=
  ⟨by decide,
   (claim_C6_rejected_add_leaves_store freshStore wdeltaB wmeta (by decide)).1,
   by decide,
   (claim_C6_rejected_add_leaves_store freshStore wdeltaB wmeta
     (by decide)).2 (by decide)⟩

/-- C7: every entry appended by `add` is encoded as the 20-byte node, the
path length as `u16` big-endian, the path bytes, the serialized metadata,
the compressed length as `u64` big-endian and the LZ4-compressed payload
(`specEntryLayout`); and the primary index keys the entry by its node bytes
at offset 0, so looking the node up finds it. -/
theorem claim_C7_entry_encoding (s : IndexedLogDataStore) (delta : Delta)
    (metadata : Metadata) (hbase : delta.base = none)
    (hnode : delta.key.node.length = Node.len) :
    s.add delta metadata
      = Except.ok ⟨s.log.append (specEntryLayout delta.key metadata delta.data)⟩
    ∧ (specEntryLayout delta.key metadata delta.data).take Node.len
        = delta.key.node
    ∧ (s.log.append (specEntryLayout delta.key metadata delta.data)).lookup
          delta.key.node
        = specEntryLayout delta.key metadata delta.data
            :: s.log.lookup delta.key.node :=
  ⟨add_ok s delta metadata hbase,
   specEntryLayout_take delta.key metadata delta.data hnode,
   lookup_append_hit s.log _ _
     (specEntryLayout_take delta.key metadata delta.data hnode)⟩

theorem claim_C7_entry_encoding_witness :
    (wdelta.base = none ∧ wdelta.key.node.length = Node.len)
    ∧ (freshStore.add wdelta wmeta
        = Except.ok
            ⟨freshStore.log.append (specEntryLayout wdelta.key wmeta wdelta.data)⟩
      ∧ (specEntryLayout wdelta.key wmeta wdelta.data).take Node.len
          = wdelta.key.node
      ∧ (freshStore.log.append
            (specEntryLayout wdelta.key wmeta wdelta.data)).lookup
            wdelta.key.node
          = specEntryLayout wdelta.key wmeta wdelta.data
              :: freshStore.log.lookup wdelta.key.node) :=
  ⟨by decide,
   claim_C7_entry_encoding freshStore wdelta wmeta (by decide) (by decide)⟩

/-- C8: `getmetrics` on a pack-store directory yields `numpacks` equal to
half the number of files whose extension is one of the two store extensions
and `totalpacksize` equal to the total size of those files; a failed scan
yields `(0, 0)`. -/
theorem claim_C8_getmetrics (l : List DirEntry) :
    datapackstore_getmetrics none = (0, 0)
    ∧ datapackstore_getmetrics (some l)
        = ((l.filter (matchesExt ["datapack", "dataidx"])).length / 2,
           ((l.filter (matchesExt ["datapack", "dataidx"])).map
             DirEntry.size).sum) := by
  constructor
  · rfl
  · rw [datapackstore_getmetrics, getmetrics, compute_store_size]
    simp only
    rw [store_size_foldl ["datapack", "dataidx"] l 0 0]
    simp

/-- C9: lookup in the indexed-log data store uses the node alone — two keys
with equal node and any paths resolve to the same stored entry (`get_meta`
agrees, `get_delta` returns the same data) — and the `Delta` returned by
`get_delta` carries the queried key, including the queried path. -/
theorem claim_C9_lookup_by_node_alone (s : IndexedLogDataStore)
    (k1 k2 : Key) (h : k1.node = k2.node) :
    s.get_meta k1 = s.get_meta k2
    ∧ (s.get_delta k1).map Delta.data = (s.get_delta k2).map Delta.data
    ∧ ∀ d, s.get_delta k1 = Except.ok d → d.key = k1 := by
  have hcongr := from_log_node_congr k1 k2 s.log h
  refine ⟨?_, ?_, ?_⟩
  · rw [IndexedLogDataStore.get_meta, IndexedLogDataStore.get_meta, hcongr]
    cases Entry.from_log k2 s.log with
    | error e => rfl
    | ok e => rfl
  · rw [IndexedLogDataStore.get_delta, IndexedLogDataStore.get_delta, hcongr]
    cases Entry.from_log k2 s.log with
    | error e => rfl
    | ok e =>
      obtain ⟨ek, em, ec, ecc⟩ := e
      simp only [Except.map]
      cases hg : Entry.getContent ⟨ek, em, ec, ecc⟩ with
      | error e2 =>
        rw [show Entry.getContent ⟨k1, em, ec, ecc⟩
            = Entry.getContent ⟨ek, em, ec, ecc⟩ from rfl, hg]
      | ok content =>
        rw [show Entry.getContent ⟨k1, em, ec, ecc⟩
            = Entry.getContent ⟨ek, em, ec, ecc⟩ from rfl, hg]
  · intro d hd
    exact (get_delta_ok_shape s k1 d hd).2

theorem claim_C9_lookup_by_node_alone_witness :
    wkey2.node = wkey.node
    ∧ (wstore.get_meta wkey2 = wstore.get_meta wkey
      ∧ (wstore.get_delta wkey2).map Delta.data
          = (wstore.get_delta wkey).map Delta.data
      ∧ ∀ d, wstore.get_delta wkey2 = Except.ok d → d.key = wkey2)
    ∧ wstore.get_delta wkey2
        = Except.ok ⟨wkey2, none, [1, 2, 3, 4]⟩ :=
  ⟨by decide, claim_C9_lookup_by_node_alone wstore wkey2 wkey (by decide),
   by decide⟩

/-- C10: `add` with a key whose path is longer than 65535 bytes does not
fail — the entry is appended with the `path_len` field holding the path
length reduced modulo `2^16` while all path bytes are written, so the
declared path length disagrees with the actual path bytes. -/
theorem claim_C10_path_length_truncation (s : IndexedLogDataStore)
    (delta : Delta) (metadata : Metadata)
    (hbase : delta.base = none)
    (hnode : delta.key.node.length = Node.len)
    (hlen : 65536 ≤ delta.key.path.length) :
    s.add delta metadata
      = Except.ok ⟨s.log.append (specEntryLayout delta.key metadata delta.data)⟩
    ∧ ((specEntryLayout delta.key metadata delta.data).drop Node.len).take 2
        = u16be (delta.key.path.length % 65536)
    ∧ ((specEntryLayout delta.key metadata delta.data).drop
          (Node.len + 2)).take delta.key.path.length
        = delta.key.path
    ∧ delta.key.path.length % 65536 ≠ delta.key.path.length := by
  refine ⟨add_ok s delta metadata hbase, ?_, ?_, by omega⟩
  · have hassoc : specEntryLayout delta.key metadata delta.data
        = delta.key.node ++ (u16be delta.key.path.length ++ (delta.key.path
          ++ (Metadata.write metadata
            ++ (u64be (compress delta.data).length
              ++ compress delta.data)))) := by
      simp [specEntryLayout, List.append_assoc]
    rw [hassoc, List.drop_left' hnode, ← u16be_mod]
    exact List.take_left' (by simp [u16be])
  · have hassoc2 : specEntryLayout delta.key metadata delta.data
        = (delta.key.node ++ u16be delta.key.path.length) ++ (delta.key.path
          ++ (Metadata.write metadata
            ++ (u64be (compress delta.data).length
              ++ compress delta.data))) := by
      simp [specEntryLayout, List.append_assoc]
    rw [hassoc2, List.drop_left' (by simp [u16be, hnode, Node.len]),
      List.take_left]

theorem claim_C10_path_length_truncation_witness :
    (wdeltaLong.base = none ∧ wdeltaLong.key.node.length = Node.len
      ∧ 65536 ≤ wdeltaLong.key.path.length)
    ∧ (freshStore.add wdeltaLong wmeta
        = Except.ok
            ⟨freshStore.log.append
              (specEntryLayout wdeltaLong.key wmeta wdeltaLong.data)⟩
      ∧ ((specEntryLayout wdeltaLong.key wmeta
            wdeltaLong.data).drop Node.len).take 2
          = u16be (wdeltaLong.key.path.length % 65536)
      ∧ ((specEntryLayout wdeltaLong.key wmeta wdeltaLong.data).drop
            (Node.len + 2)).take wdeltaLong.key.path.length
          = wdeltaLong.key.path
      ∧ wdeltaLong.key.path.length % 65536 ≠ wdeltaLong.key.path.length) :=
  ⟨⟨by decide, by decide, by
     show 65536 ≤ (List.replicate 65536 7).length
     rw [List.length_replicate]⟩,
   claim_C10_path_length_truncation freshStore wdeltaLong wmeta (by decide)
     (by decide) (by
       show 65536 ≤ (List.replicate 65536 7).length
       rw [List.length_replicate])⟩

end Revisionstore
